import Mathlib

set_option autoImplicit false

/-!
Verification of the ask-to-api-engine core pipeline: the OpenAPI spec loader,
the operation catalog, the retriever, and the prompt-context formatter.

The embedding below is a shallow model of the Python sources under
`app/swagger`, `app/rag` and `app/chains`:

* JSON documents produced by `json.load` are modelled by the `Json` inductive;
  Python `dict.get(k)` on such a tree returns `None` both when the key is
  absent and when its value is JSON `null`, which `Json.pyGet` reproduces,
  while `dict.get(k, default)` returns the stored value (even `null`) whenever
  the key is present, which `Json.getFieldD` reproduces.
* Distance scores coming back from the vector store are floats in the source;
  they are modelled as rationals, which preserves every order comparison the
  code performs.
* File enumeration and parsing are I/O; the loader model therefore takes the
  list of (file name, parse outcome) pairs as input, in the sorted order the
  source iterates them.
-/

namespace AskToApi

/-- A parsed JSON document, as produced by Python's `json.load`. -/
inductive Json where
  | null
  | bool (b : Bool)
  | num (q : ℚ)
  | str (s : String)
  | arr (elems : List Json)
  | obj (fields : List (String × Json))

/-- The raw field lookup on a JSON object: Python `d[k]` presence. Objects
produced by `json.load` have unique keys, so the first match is the match. -/
def Json.lookupField : Json → String → Option Json
  | .obj fields, k => fields.lookup k
  | _, _ => none

/-- Python `d.get(k)` on a `json.load` tree: `None` when the key is absent or
when its stored value is JSON `null`. -/
def Json.pyGet (j : Json) (k : String) : Option Json :=
  match j.lookupField k with
  | some .null => none
  | some v => some v
  | none => none

/-- Python `d.get(k, default)`: the stored value whenever the key is present
(JSON `null` included), otherwise the default. -/
def Json.getFieldD (j : Json) (k : String) (d : Json) : Json :=
  match j.lookupField k with
  | some v => v
  | none => d

/-- Python truthiness of a `json.load` value. -/
def Json.pyTruthy : Json → Bool
  | .null => false
  | .bool b => b
  | .num q => q != 0
  | .str s => s != ""
  | .arr elems => !elems.isEmpty
  | .obj fields => !fields.isEmpty

/-- The string payload of a JSON string, `none` on any other shape. -/
def Json.asStr : Json → Option String
  | .str s => some s
  | _ => none

/-- The fields of a JSON object, `[]` on any other shape. -/
def Json.objFields : Json → List (String × Json)
  | .obj fields => fields
  | _ => []

/-- The elements of the list stored under `k`, as in iterating
`d.get(k, [])`: `[]` when the key is absent or not a JSON array. -/
def Json.getArrD (j : Json) (k : String) : List Json :=
  match j.lookupField k with
  | some (.arr elems) => elems
  | _ => []

/-- Models Python `str(...)` applied to a `json.load` value; used only to
stringify parameter examples. Container values are rendered by a fixed
marker (Python uses `repr` quoting inside containers); no theorem below
depends on the rendering of containers or numbers. -/
def pyStr : Json → String
  | .null => "None"
  | .bool true => "True"
  | .bool false => "False"
  | .num q => toString q
  | .str s => s
  | .arr _ => "[...]"
  | .obj _ => "\x7b...\x7d"

/-! The data model of `app/swagger/models.py`. -/

/-- Mirror of `ApiParameterLocation`. -/
inductive ApiParameterLocation where
  | path
  | query
  | header
  | cookie
deriving DecidableEq, Repr

/-- Mirror of `ApiParameterDescriptor` (the `example` field is renamed, as
`example` is a Lean keyword). -/
structure ApiParameterDescriptor where
  name : String
  location : ApiParameterLocation
  required : Bool := false
  type : Option String := none
  description : Option String := none
  exampleVal : Option String := none
deriving DecidableEq, Repr

/-- Mirror of `ApiOperationDescriptor`. -/
structure ApiOperationDescriptor where
  id : String
  http_method : String
  path : String
  summary : Option String := none
  description : Option String := none
  tags : List String := []
  parameters : List ApiParameterDescriptor := []
  has_request_body : Bool := false
  request_body_summary : Option String := none
  source_name : Option String := none
deriving DecidableEq, Repr

/-! The loader of `app/swagger/loader.py`. -/

/-- Mirror of `_HTTP_METHODS`. -/
def _HTTP_METHODS : List String := ["get", "post", "put", "delete", "patch"]

/-- Mirror of `_map_location`: the argument is `p.get("in")`, so JSON `null`
arrives as `none` and maps to `query`. -/
def _map_location : Option String → ApiParameterLocation
  | none => .query
  | some v =>
    match v.toLower with
    | "path" => .path
    | "query" => .query
    | "header" => .header
    | "cookie" => .cookie
    | _ => .query

/-- Mirror of `_build_param`. -/
def _build_param (p : Json) : ApiParameterDescriptor :=
  let schema := p.getFieldD "schema" (Json.obj [])
  let schema_type := schema.pyGet "type"
  let schema_format := schema.pyGet "format"
  let param_type : Option String :=
    match schema_type, schema_format with
    | some t, some f =>
      if t.pyTruthy && f.pyTruthy then some (pyStr t ++ "(" ++ pyStr f ++ ")")
      else t.asStr
    | some t, none => t.asStr
    | none, _ => none
  { name := (((p.getFieldD "name" (Json.str "")).asStr).getD "")
    location := _map_location ((p.pyGet "in").bind Json.asStr)
    required :=
      match p.lookupField "required" with
      | some (.bool b) => b
      | _ => false
    type := param_type
    description := (p.pyGet "description").bind Json.asStr
    exampleVal := (p.pyGet "example").map pyStr }

/-- Mirror of `_build_operation`. -/
def _build_operation (path : String) (method : String) (operation : Json)
    (path_level_params : List Json) (source_name : String) :
    ApiOperationDescriptor :=
  let operation_id : String :=
    match operation.pyGet "operationId" with
    | some v => if v.pyTruthy then (v.asStr).getD "" else method.toUpper ++ " " ++ path
    | none => method.toUpper ++ " " ++ path
  let params := path_level_params.map _build_param
    ++ (operation.getArrD "parameters").map _build_param
  let request_body := operation.pyGet "requestBody"
  { id := operation_id
    http_method := method.toUpper
    path := path
    summary := (operation.pyGet "summary").bind Json.asStr
    description := (operation.pyGet "description").bind Json.asStr
    tags := (operation.getArrD "tags").filterMap Json.asStr
    parameters := params
    has_request_body := request_body.isSome
    request_body_summary :=
      match request_body with
      | some rb => if rb.pyTruthy then (rb.pyGet "description").bind Json.asStr else none
      | none => none
    source_name := some source_name }

/-- The per-file body of the loop in `load_all_operations`, applied to one
successfully parsed spec tree. -/
def fileOperations (source_name : String) (spec : Json) :
    List ApiOperationDescriptor :=
  ((spec.getFieldD "paths" (Json.obj [])).objFields).flatMap fun pt =>
    _HTTP_METHODS.filterMap fun method =>
      (pt.2.pyGet method).map fun operation =>
        _build_operation pt.1 method operation (pt.2.getArrD "parameters")
          source_name

/-- Mirror of `load_all_operations`. The input is the sorted list of `*.json`
files of the directory, each paired with the outcome of `json.load`: reading
and parsing are I/O, so the model receives their result; a file whose
parse raised is represented by `Except.error` and contributes nothing, as the
`except` clause in the source logs and skips it. -/
def load_all_operations
    (files : List (String × Except String Json)) :
    List ApiOperationDescriptor :=
  files.flatMap fun f =>
    match f.2 with
    | .error _ => []
    | .ok spec => fileOperations f.1 spec

/-! The catalog of `app/swagger/catalog.py`. -/

/-- One insertion into a Python dict, modelled on an association list: a
present key has its value replaced in place, an absent key is appended. -/
def dictInsert (d : List (String × ApiOperationDescriptor)) (k : String)
    (v : ApiOperationDescriptor) : List (String × ApiOperationDescriptor) :=
  match d with
  | [] => [(k, v)]
  | kv :: rest => if kv.1 = k then (kv.1, v) :: rest else kv :: dictInsert rest k v

/-- Mirror of `SwaggerCatalog`: its one field is the `_by_id` dict. -/
structure SwaggerCatalog where
  by_id : List (String × ApiOperationDescriptor)
deriving DecidableEq, Repr

/-- Mirror of `SwaggerCatalog.__init__`: the dict comprehension
`{op.id: op for op in operations}` inserts the operations in order, a later
duplicate id overwriting the earlier value. -/
def mkSwaggerCatalog (operations : List ApiOperationDescriptor) :
    SwaggerCatalog :=
  ⟨operations.foldl (fun d op => dictInsert d op.id op) []⟩

/-- Key lookup in the association-list model of a Python dict: the value at
the first (and, keys being unique, only) entry whose key equals the query. -/
def dictLookup : List (String × ApiOperationDescriptor) → String →
    Option ApiOperationDescriptor
  | [], _ => none
  | kv :: rest, k => if kv.1 = k then some kv.2 else dictLookup rest k

/-- Mirror of `SwaggerCatalog.find_by_id` (`self._by_id.get(operation_id)`). -/
def SwaggerCatalog.find_by_id (c : SwaggerCatalog) (operation_id : String) :
    Option ApiOperationDescriptor :=
  dictLookup c.by_id operation_id

/-- Mirror of `SwaggerCatalog.find_by_tag`. -/
def SwaggerCatalog.find_by_tag (c : SwaggerCatalog) (tag : String) :
    List ApiOperationDescriptor :=
  (c.by_id.map Prod.snd).filter fun op => op.tags.contains tag

/-- Mirror of `SwaggerCatalog.get_all`. -/
def SwaggerCatalog.get_all (c : SwaggerCatalog) : List ApiOperationDescriptor :=
  c.by_id.map Prod.snd

/-! The retriever of `app/rag/retriever.py`. -/

/-- Mirror of `DEFAULT_SCORE_THRESHOLD`. -/
def DEFAULT_SCORE_THRESHOLD : ℚ := 1.2

/-- One `(doc, score)` pair returned by
`vector_store.similarity_search_with_score`: of the document only the
`operationId` metadata entry is ever read, `none` standing for an absent
field. -/
structure ScoredHit where
  operationId : Option String
  score : ℚ
deriving DecidableEq, Repr

/-- The loop of `retrieve_operations`, with the mutable `seen` set and the
`results` accumulator made explicit (`results` is the returned list, `seen`
the set of operation ids already encountered past the score filter). -/
def retrieveLoop (catalog : SwaggerCatalog) (score_threshold : ℚ)
    (seen : List String) : List ScoredHit → List ApiOperationDescriptor
  | [] => []
  | h :: rest =>
    if h.score > score_threshold then
      retrieveLoop catalog score_threshold seen rest
    else
      match h.operationId with
      | none => retrieveLoop catalog score_threshold seen rest
      | some op_id =>
        if op_id = "" ∨ op_id ∈ seen then
          retrieveLoop catalog score_threshold seen rest
        else
          match catalog.find_by_id op_id with
          | some op => op :: retrieveLoop catalog score_threshold (op_id :: seen) rest
          | none => retrieveLoop catalog score_threshold (op_id :: seen) rest

/-- Mirror of `retrieve_operations`. The similarity search itself is external
I/O: the model receives `docs_with_scores`, the store's response to
`similarity_search_with_score(query, k=top_k)`, as input (so `query` and
`top_k` do not reappear here), and performs the filtering, deduplication and
catalog resolution of the source loop. -/
def retrieve_operations (docs_with_scores : List ScoredHit)
    (catalog : SwaggerCatalog)
    (score_threshold : ℚ := DEFAULT_SCORE_THRESHOLD) :
    List ApiOperationDescriptor :=
  retrieveLoop catalog score_threshold [] docs_with_scores

/-! The context formatter of `app/chains/prompts.py`. -/

/-- Python `sep.join(parts)`. -/
def pyJoin (sep : String) : List String → String
  | [] => ""
  | [x] => x
  | x :: y :: rest => x ++ sep ++ pyJoin sep (y :: rest)

/-- Python `enumerate(xs, start)`. -/
def pyEnumerate (start : Nat) : List ApiOperationDescriptor →
    List (Nat × ApiOperationDescriptor)
  | [] => []
  | x :: rest => (start, x) :: pyEnumerate (start + 1) rest

/-- The `line += ...` steps of `_format_param` guarded by Python truthiness
of an optional string (absent or empty contributes nothing). -/
def appendIfTruthy (line : String) (pre : String) (v : Option String)
    (post : String) : String :=
  match v with
  | some s => if s != "" then line ++ pre ++ s ++ post else line
  | none => line

/-- Mirror of `_format_param`. -/
def _format_param (p : ApiParameterDescriptor) : String :=
  let req := if p.required then "required" else "optional"
  let line := "      - " ++ p.name ++ " [" ++ req ++ "]"
  let line := appendIfTruthy line " (type: " p.type ")"
  let line := appendIfTruthy line " - " p.description ""
  appendIfTruthy line " (example: " p.exampleVal ")"

/-- One `lines.append(...)` guarded by Python truthiness of an optional
string, as in `if op.summary: lines.append(...)`. -/
def lineIfTruthy (pre : String) (v : Option String) : List String :=
  match v with
  | some s => if s != "" then [pre ++ s] else []
  | none => []

/-- The block built for one operation by the body of the `for i, op in
enumerate(operations, 1)` loop of `format_operations_context`: the `lines`
list joined with a newline. -/
def operationBlock (i : Nat) (op : ApiOperationDescriptor) : String :=
  let path_params := op.parameters.filter fun p => p.location = .path
  let query_params := op.parameters.filter fun p => p.location = .query
  let lines : List String :=
    [toString i ++ ") ID: " ++ op.id,
     "   Method: " ++ op.http_method,
     "   Path: " ++ op.path]
    ++ lineIfTruthy "   Summary: " op.summary
    ++ lineIfTruthy "   Description: " op.description
    ++ (if op.tags.isEmpty then [] else ["   Tags: " ++ pyJoin ", " op.tags])
    ++ (if path_params.isEmpty then []
        else "   Path parameters:" :: path_params.map _format_param)
    ++ (if query_params.isEmpty then []
        else "   Query parameters:" :: query_params.map _format_param)
    ++ [if op.has_request_body then
          appendIfTruthy "   Request body: YES" " - " op.request_body_summary ""
        else "   Request body: NO"]
    ++ lineIfTruthy "   Source: " op.source_name
  pyJoin "\n" lines

/-- Mirror of `format_operations_context`. -/
def format_operations_context (operations : List ApiOperationDescriptor) :
    String :=
  match operations with
  | [] => "NO_OPERATIONS_AVAILABLE"
  | _ =>
    pyJoin "\n\n" ((pyEnumerate 1 operations).map fun p => operationBlock p.1 p.2)

/-! Helper lemmas about the catalog dictionary. -/

theorem dictInsert_lookup (d : List (String × ApiOperationDescriptor))
    (k k' : String) (v : ApiOperationDescriptor) :
    dictLookup (dictInsert d k v) k' = if k' = k then some v else dictLookup d k' := by
  induction d with
  | nil =>
    by_cases h : k' = k
    · simp [dictInsert, dictLookup, h]
    · simp [dictInsert, dictLookup, h, Ne.symm h]
  | cons kv rest ih =>
    by_cases hk : kv.1 = k
    · by_cases hk' : kv.1 = k'
      · have hkk : k' = k := hk'.symm.trans hk
        simp [dictInsert, dictLookup, hk, hk', hkk]
      · have hkk : ¬ k' = k := fun h => hk' (hk.trans h.symm)
        have hkk2 : ¬ k = k' := fun h => hkk h.symm
        simp [dictInsert, dictLookup, hk, hk', hkk, hkk2]
    · by_cases hk' : kv.1 = k'
      · have hkk : ¬ k' = k := fun h => hk (hk'.trans h)
        simp [dictInsert, dictLookup, hk, hk', hkk]
      · simp [dictInsert, dictLookup, hk, hk', ih]

theorem dictInsert_map_fst (d : List (String × ApiOperationDescriptor))
    (k : String) (v : ApiOperationDescriptor) :
    (dictInsert d k v).map Prod.fst =
      if k ∈ d.map Prod.fst then d.map Prod.fst else d.map Prod.fst ++ [k] := by
  induction d with
  | nil => simp [dictInsert]
  | cons kv rest ih =>
    by_cases hk : kv.1 = k
    · simp [dictInsert, hk]
    · simp only [dictInsert, if_neg hk, List.map_cons, List.mem_cons, ih]
      by_cases hm : k ∈ rest.map Prod.fst <;>
        simp [hm, hk, Ne.symm hk, List.cons_append]

theorem foldl_dictInsert_keep (ops : List ApiOperationDescriptor) :
    ∀ d : List (String × ApiOperationDescriptor),
      (∀ kv ∈ d, kv.1 = kv.2.id) →
      ∀ kv ∈ ops.foldl (fun d op => dictInsert d op.id op) d, kv.1 = kv.2.id := by
  induction ops with
  | nil => intro d hd; simpa using hd
  | cons op ops ih =>
    intro d hd
    refine ih (dictInsert d op.id op) ?_
    intro kv hkv
    induction d with
    | nil => simp [dictInsert] at hkv; simp [hkv]
    | cons kv' rest ih' =>
      by_cases hk : kv'.1 = op.id
      · simp [dictInsert, hk] at hkv
        rcases hkv with h | h
        · simp [h, hk]
        · exact hd kv (List.mem_cons_of_mem _ h)
      · simp [dictInsert, hk] at hkv
        rcases hkv with h | h
        · exact hd kv (by simp [h])
        · exact ih' (fun kv h' => hd kv (List.mem_cons_of_mem _ h')) h

theorem lookup_key_eq_id (d : List (String × ApiOperationDescriptor))
    (hd : ∀ kv ∈ d, kv.1 = kv.2.id) (k : String) (op : ApiOperationDescriptor)
    (h : dictLookup d k = some op) : op.id = k := by
  induction d with
  | nil => simp [dictLookup] at h
  | cons kv rest ih =>
    by_cases hk : kv.1 = k
    · simp [dictLookup, hk] at h
      have hkey := hd kv (by simp)
      rw [← h, ← hkey, hk]
    · simp [dictLookup, hk] at h
      exact ih (fun kv h' => hd kv (List.mem_cons_of_mem _ h')) h

theorem mkSwaggerCatalog_key_eq_id (ops : List ApiOperationDescriptor)
    (k : String) (op : ApiOperationDescriptor)
    (h : (mkSwaggerCatalog ops).find_by_id k = some op) : op.id = k := by
  refine lookup_key_eq_id _ ?_ k op h
  exact foldl_dictInsert_keep ops [] (by simp)

theorem foldl_dictInsert_lookup (ops : List ApiOperationDescriptor) :
    ∀ (d : List (String × ApiOperationDescriptor)) (k : String),
      dictLookup (ops.foldl (fun d op => dictInsert d op.id op) d) k =
        match ops.reverse.find? (fun op => op.id == k) with
        | some op => some op
        | none => dictLookup d k := by
  induction ops with
  | nil => intro d k; simp
  | cons op ops ih =>
    intro d k
    rw [List.foldl_cons, ih, List.reverse_cons, List.find?_append]
    cases hfind : ops.reverse.find? (fun op => op.id == k) with
    | some op' => simp [hfind]
    | none =>
      simp only [hfind]
      by_cases hk : op.id = k
      · simp [List.find?, hk, dictInsert_lookup]
      · have hb : (op.id == k) = false := beq_eq_false_iff_ne.mpr hk
        simp [List.find?, hb, dictInsert_lookup, Ne.symm hk]

theorem mkSwaggerCatalog_keys_nodup (ops : List ApiOperationDescriptor) :
    ((mkSwaggerCatalog ops).by_id.map Prod.fst).Nodup := by
  suffices h : ∀ d : List (String × ApiOperationDescriptor),
      (d.map Prod.fst).Nodup →
      ((ops.foldl (fun d op => dictInsert d op.id op) d).map Prod.fst).Nodup by
    exact h [] (by simp)
  induction ops with
  | nil => intro d hd; simpa using hd
  | cons op ops ih =>
    intro d hd
    refine ih _ ?_
    rw [dictInsert_map_fst]
    by_cases hm : op.id ∈ d.map Prod.fst <;> simp [hm, List.nodup_append, hd]

theorem lookup_mem_keys (d : List (String × ApiOperationDescriptor))
    (k : String) (op : ApiOperationDescriptor) (h : dictLookup d k = some op) :
    k ∈ d.map Prod.fst := by
  induction d with
  | nil => simp [dictLookup] at h
  | cons kv rest ih =>
    by_cases hk : kv.1 = k
    · simp [hk]
    · simp [dictLookup, hk] at h
      exact List.mem_cons_of_mem _ (ih h)

/-- C5. For every input sequence of operations containing two or more
operations with the same id, the catalog built by `SwaggerCatalog.__init__`
holds exactly one entry for that id, its value is the operation occurring
latest in the input sequence (last-write-wins), and `find_by_id` on that id
returns it. -/
theorem catalog_duplicate_id_last_write_wins
    (ops : List ApiOperationDescriptor) (k : String)
    (hdup : 2 ≤ (ops.filter (fun op => op.id == k)).length) :
    (mkSwaggerCatalog ops).by_id.countP (fun kv => kv.1 == k) = 1 ∧
      (mkSwaggerCatalog ops).find_by_id k =
        ops.reverse.find? (fun op => op.id == k) := by
  have hmem : ∃ op ∈ ops, op.id = k := by
    rcases List.exists_mem_of_length_pos (by omega :
        0 < (ops.filter (fun op => op.id == k)).length) with ⟨op, hop⟩
    exact ⟨op, (List.mem_filter.mp hop).1, by
      have := (List.mem_filter.mp hop).2; simpa using this⟩
  have hfind : (ops.reverse.find? (fun op => op.id == k)).isSome := by
    rw [List.find?_isSome]
    rcases hmem with ⟨op, hop, hid⟩
    exact ⟨op, by simpa using hop, by simpa using hid⟩
  rcases Option.isSome_iff_exists.mp hfind with ⟨opLast, hlast⟩
  have hlookup : (mkSwaggerCatalog ops).find_by_id k = some opLast := by
    show dictLookup (ops.foldl (fun d op => dictInsert d op.id op) []) k = _
    rw [foldl_dictInsert_lookup, hlast]
  constructor
  · have hk : k ∈ (mkSwaggerCatalog ops).by_id.map Prod.fst :=
      lookup_mem_keys _ _ _ hlookup
    have hnodup := mkSwaggerCatalog_keys_nodup ops
    have hcount : ((mkSwaggerCatalog ops).by_id.map Prod.fst).count k = 1 :=
      List.count_eq_one_of_mem hnodup hk
    calc (mkSwaggerCatalog ops).by_id.countP (fun kv => kv.1 == k)
        = ((mkSwaggerCatalog ops).by_id.map Prod.fst).countP (fun x => x == k) := by
          rw [List.countP_map]; rfl
      _ = 1 := hcount
  · rw [hlookup, hlast]

/-- C8. A file whose parse fails is skipped: the loader's output over a file
list containing a failing file is exactly the concatenation of its outputs
over the files before and after it, so one malformed spec neither aborts nor
empties the load. -/
theorem load_skips_failed_file
    (pre post : List (String × Except String Json)) (name err : String) :
    load_all_operations (pre ++ (name, Except.error err) :: post) =
      load_all_operations pre ++ load_all_operations post := by
  simp [load_all_operations]

/-! Helper notions and lemmas about the retriever. -/

/-- The operation id a hit contributes to the retriever's output, if any: its
`operationId` metadata entry, provided the hit passes the score filter, the id
is non-empty and the id resolves in the catalog. -/
def survivingId (cat : SwaggerCatalog) (thr : ℚ) (h : ScoredHit) :
    Option String :=
  if h.score > thr then none
  else
    match h.operationId with
    | some k =>
      if k = "" then none
      else if (cat.find_by_id k).isSome then some k else none
    | none => none

/-- Removal of duplicates keeping the first occurrence, relative to a set of
ids already seen. -/
def dedupKeepFirstAux (seen : List String) : List String → List String
  | [] => []
  | k :: rest =>
    if k ∈ seen then dedupKeepFirstAux seen rest
    else k :: dedupKeepFirstAux (k :: seen) rest

/-- Removal of duplicates from a list, keeping the first occurrence of each
element and the relative order of survivors. -/
def dedupKeepFirst (l : List String) : List String := dedupKeepFirstAux [] l

theorem dedupKeepFirstAux_congr :
    ∀ (l : List String) (s t : List String), (∀ x, x ∈ s ↔ x ∈ t) →
      dedupKeepFirstAux s l = dedupKeepFirstAux t l := by
  intro l
  induction l with
  | nil => intro s t _; rfl
  | cons k rest ih =>
    intro s t hst
    by_cases hk : k ∈ s
    · simp [dedupKeepFirstAux, hk, (hst k).mp hk, ih s t hst]
    · have hk' : k ∉ t := fun h => hk ((hst k).mpr h)
      simp only [dedupKeepFirstAux, if_neg hk, if_neg hk']
      refine congrArg _ (ih _ _ ?_)
      intro x; simp [hst x]

theorem dedupKeepFirstAux_not_mem :
    ∀ (l : List String) (seen : List String) (k : String), k ∉ l →
      dedupKeepFirstAux (k :: seen) l = dedupKeepFirstAux seen l := by
  intro l
  induction l with
  | nil => intro seen k _; rfl
  | cons x rest ih =>
    intro seen k hk
    have hxk : ¬ x = k := fun h => hk (by simp [h])
    have hkrest : k ∉ rest := fun h => hk (List.mem_cons_of_mem _ h)
    by_cases hx : x ∈ seen
    · simp [dedupKeepFirstAux, hx, hxk, ih seen k hkrest]
    · have hx' : x ∉ (k :: seen) := by simp [hxk, hx]
      simp only [dedupKeepFirstAux, if_neg hx, if_neg hx']
      refine congrArg _ ?_
      calc dedupKeepFirstAux (x :: k :: seen) rest
          = dedupKeepFirstAux (k :: x :: seen) rest := by
            refine dedupKeepFirstAux_congr rest _ _ ?_
            intro y; constructor <;> intro hy <;> simp at hy <;> simp [hy] <;> tauto
        _ = dedupKeepFirstAux (x :: seen) rest := ih (x :: seen) k hkrest

theorem dedupKeepFirstAux_nodup :
    ∀ (l : List String) (seen : List String),
      (dedupKeepFirstAux seen l).Nodup ∧ ∀ x ∈ dedupKeepFirstAux seen l, x ∉ seen := by
  intro l
  induction l with
  | nil => intro seen; simp [dedupKeepFirstAux]
  | cons k rest ih =>
    intro seen
    by_cases hk : k ∈ seen
    · simpa [dedupKeepFirstAux, hk] using ih seen
    · have hrest := ih (k :: seen)
      refine ⟨?_, ?_⟩
      · simp only [dedupKeepFirstAux, if_neg hk, List.nodup_cons]
        exact ⟨fun hmem => (hrest.2 k hmem) (by simp), hrest.1⟩
      · intro x hx
        simp only [dedupKeepFirstAux, if_neg hk, List.mem_cons] at hx
        rcases hx with rfl | hx
        · exact hk
        · exact fun hxs => (hrest.2 x hx) (List.mem_cons_of_mem _ hxs)

theorem survivingId_resolves (cat : SwaggerCatalog) (thr : ℚ)
    (hits : List ScoredHit) (k : String)
    (hk : k ∈ hits.filterMap (survivingId cat thr)) :
    (cat.find_by_id k).isSome := by
  rcases List.mem_filterMap.mp hk with ⟨h, _, hsome⟩
  unfold survivingId at hsome
  split at hsome
  · exact absurd hsome (by simp)
  · split at hsome
    · split at hsome
      · exact absurd hsome (by simp)
      · split at hsome
        · rename_i hres
          cases hsome
          exact hres
        · exact absurd hsome (by simp)
    · exact absurd hsome (by simp)

theorem retrieveLoop_map_id (cat : SwaggerCatalog) (thr : ℚ)
    (hinv : ∀ k op, cat.find_by_id k = some op → op.id = k) :
    ∀ (hits : List ScoredHit) (seen : List String),
      (retrieveLoop cat thr seen hits).map (fun op => op.id)
        = dedupKeepFirstAux seen (hits.filterMap (survivingId cat thr)) := by
  intro hits
  induction hits with
  | nil => intro seen; simp [retrieveLoop, dedupKeepFirstAux]
  | cons h rest ih =>
    intro seen
    by_cases hscore : h.score > thr
    · simp only [retrieveLoop, if_pos hscore, List.filterMap_cons,
        survivingId, ih]
    · cases hid : h.operationId with
      | none =>
        simp only [retrieveLoop, if_neg hscore, hid, List.filterMap_cons,
          survivingId, ih]
      | some k =>
        by_cases hempty : k = ""
        · simp [retrieveLoop, if_neg hscore, hid, hempty, List.filterMap_cons,
            survivingId, ih, dedupKeepFirstAux]
        · by_cases hseen : k ∈ seen
          · by_cases hres : (cat.find_by_id k).isSome
            · simp [retrieveLoop, if_neg hscore, hid, hempty, hseen,
                List.filterMap_cons, survivingId, hres, ih, dedupKeepFirstAux]
            · simp [retrieveLoop, if_neg hscore, hid, hempty, hseen,
                List.filterMap_cons, survivingId, hres, ih]
          · cases hres : cat.find_by_id k with
            | some op =>
              have hopid : op.id = k := hinv k op hres
              simp [retrieveLoop, if_neg hscore, hid, hempty, hseen,
                List.filterMap_cons, survivingId, hres, ih, dedupKeepFirstAux,
                hopid]
            | none =>
              have hnres : k ∉ rest.filterMap (survivingId cat thr) := by
                intro hmem
                have := survivingId_resolves cat thr rest k hmem
                simp [hres] at this
              simp only [retrieveLoop, if_neg hscore, hid, if_neg (by
                simp [hempty, hseen] : ¬ (k = "" ∨ k ∈ seen)),
                List.filterMap_cons, survivingId, hres]
              rw [ih (k :: seen)]
              simp only [if_neg hscore, if_neg hempty, Option.isSome_none,
                Bool.false_eq_true, if_false]
              exact dedupKeepFirstAux_not_mem _ seen k hnres

theorem retrieveLoop_resolve (cat : SwaggerCatalog) (thr : ℚ)
    (hinv : ∀ k op, cat.find_by_id k = some op → op.id = k) :
    ∀ (hits : List ScoredHit) (seen : List String)
      (op : ApiOperationDescriptor),
      op ∈ retrieveLoop cat thr seen hits → cat.find_by_id op.id = some op := by
  intro hits
  induction hits with
  | nil => intro seen op hmem; simp [retrieveLoop] at hmem
  | cons h rest ih =>
    intro seen op hmem
    simp only [retrieveLoop] at hmem
    split at hmem
    · exact ih _ op hmem
    · split at hmem
      · exact ih _ op hmem
      · rename_i op_id hopid
        split at hmem
        · exact ih _ op hmem
        · split at hmem
          · rename_i op' hfind
            rcases List.mem_cons.mp hmem with rfl | hmem'
            · have := hinv op_id op hfind
              rw [this]
              exact hfind
            · exact ih _ op hmem'
          · exact ih _ op hmem

theorem retrieveLoop_from_hits (cat : SwaggerCatalog) (thr : ℚ) :
    ∀ (hits : List ScoredHit) (seen : List String)
      (op : ApiOperationDescriptor),
      op ∈ retrieveLoop cat thr seen hits →
      ∃ h ∈ hits, h.score ≤ thr ∧
        ∃ k, h.operationId = some k ∧ cat.find_by_id k = some op := by
  intro hits
  induction hits with
  | nil => intro seen op hmem; simp [retrieveLoop] at hmem
  | cons h rest ih =>
    intro seen op hmem
    simp only [retrieveLoop] at hmem
    split at hmem
    · rcases ih _ op hmem with ⟨h', hh', hrest⟩
      exact ⟨h', List.mem_cons_of_mem _ hh', hrest⟩
    · rename_i hscore
      split at hmem
      · rcases ih _ op hmem with ⟨h', hh', hrest⟩
        exact ⟨h', List.mem_cons_of_mem _ hh', hrest⟩
      · rename_i op_id hid
        split at hmem
        · rcases ih _ op hmem with ⟨h', hh', hrest⟩
          exact ⟨h', List.mem_cons_of_mem _ hh', hrest⟩
        · split at hmem
          · rename_i op' hfind
            rcases List.mem_cons.mp hmem with rfl | hmem'
            · exact ⟨h, List.mem_cons_self h rest, le_of_not_lt hscore,
                op_id, hid, hfind⟩
            · rcases ih _ op hmem' with ⟨h', hh', hrest⟩
              exact ⟨h', List.mem_cons_of_mem _ hh', hrest⟩
          · rcases ih _ op hmem with ⟨h', hh', hrest⟩
            exact ⟨h', List.mem_cons_of_mem _ hh', hrest⟩

theorem retrieveLoop_all_filtered (cat : SwaggerCatalog) (thr : ℚ) :
    ∀ (hits : List ScoredHit) (seen : List String),
      (∀ h ∈ hits, h.score > thr) → retrieveLoop cat thr seen hits = [] := by
  intro hits
  induction hits with
  | nil => intro seen _; rfl
  | cons h rest ih =>
    intro seen hall
    simp only [retrieveLoop, if_pos (hall h (List.mem_cons_self h rest))]
    exact ih seen fun h' hh' => hall h' (List.mem_cons_of_mem _ hh')

theorem retrieveLoop_seen_congr (cat : SwaggerCatalog) (thr : ℚ) :
    ∀ (hits : List ScoredHit) (s t : List String), (∀ x, x ∈ s ↔ x ∈ t) →
      retrieveLoop cat thr s hits = retrieveLoop cat thr t hits := by
  intro hits
  induction hits with
  | nil => intro s t _; rfl
  | cons h rest ih =>
    intro s t hst
    by_cases hscore : h.score > thr
    · simp only [retrieveLoop, if_pos hscore, ih s t hst]
    · cases hid : h.operationId with
      | none => simp only [retrieveLoop, if_neg hscore, hid, ih s t hst]
      | some k =>
        by_cases hcond : k = "" ∨ k ∈ s
        · have hcond' : k = "" ∨ k ∈ t := by
            rcases hcond with hk | hk
            · exact Or.inl hk
            · exact Or.inr ((hst k).mp hk)
          simp only [retrieveLoop, if_neg hscore, hid, if_pos hcond,
            if_pos hcond', ih s t hst]
        · have hcond' : ¬ (k = "" ∨ k ∈ t) := by
            intro hk
            rcases hk with hk | hk
            · exact hcond (Or.inl hk)
            · exact hcond (Or.inr ((hst k).mpr hk))
          have hext : ∀ x, x ∈ (k :: s) ↔ x ∈ (k :: t) := by
            intro x; simp [hst x]
          simp only [retrieveLoop, if_neg hscore, hid, if_neg hcond,
            if_neg hcond']
          cases cat.find_by_id k with
          | some op => simp only [ih _ _ hext]
          | none => simp only [ih _ _ hext]

theorem retrieveLoop_stale_seen (cat : SwaggerCatalog) (thr : ℚ) (k : String)
    (hstale : cat.find_by_id k = none) :
    ∀ (hits : List ScoredHit) (seen : List String),
      retrieveLoop cat thr (k :: seen) hits = retrieveLoop cat thr seen hits := by
  intro hits
  induction hits with
  | nil => intro seen; rfl
  | cons h rest ih =>
    intro seen
    by_cases hscore : h.score > thr
    · simp only [retrieveLoop, if_pos hscore, ih seen]
    · cases hid : h.operationId with
      | none => simp only [retrieveLoop, if_neg hscore, hid, ih seen]
      | some op_id =>
        by_cases hempty : op_id = ""
        · simp [retrieveLoop, if_neg hscore, hid, hempty, ih seen]
        · by_cases hk : op_id = k
          · subst hk
            by_cases hseen : op_id ∈ seen
            · simp [retrieveLoop, if_neg hscore, hid, hempty, hseen, ih seen]
            · simp only [retrieveLoop, if_neg hscore, hid,
                if_pos (Or.inr (List.mem_cons_self op_id seen)),
                if_neg (by simp [hempty, hseen] : ¬ (op_id = "" ∨ op_id ∈ seen)),
                hstale]
          · by_cases hseen : op_id ∈ seen
            · simp [retrieveLoop, if_neg hscore, hid, hempty, hseen, hk, ih seen]
            · have hmem1 : ¬ (op_id = "" ∨ op_id ∈ (k :: seen)) := by
                simp [hempty, hseen, hk]
              have hmem2 : ¬ (op_id = "" ∨ op_id ∈ seen) := by
                simp [hempty, hseen]
              simp only [retrieveLoop, if_neg hscore, hid, if_neg hmem1,
                if_neg hmem2]
              have hswap : retrieveLoop cat thr (op_id :: k :: seen) rest
                  = retrieveLoop cat thr (op_id :: seen) rest := by
                calc retrieveLoop cat thr (op_id :: k :: seen) rest
                    = retrieveLoop cat thr (k :: op_id :: seen) rest := by
                      refine retrieveLoop_seen_congr cat thr rest _ _ ?_
                      intro x
                      constructor <;> intro hx <;> simp at hx <;>
                        rcases hx with hx | hx | hx <;> simp [hx]
                  _ = retrieveLoop cat thr (op_id :: seen) rest :=
                      ih (op_id :: seen)
              cases cat.find_by_id op_id with
              | some op => simp only [hswap]
              | none => simp only [hswap]

theorem retrieveLoop_remove_stale (cat : SwaggerCatalog) (thr : ℚ)
    (h : ScoredHit) (k : String) (hid : h.operationId = some k)
    (hstale : cat.find_by_id k = none) :
    ∀ (pre : List ScoredHit) (post : List ScoredHit) (seen : List String),
      retrieveLoop cat thr seen (pre ++ h :: post)
        = retrieveLoop cat thr seen (pre ++ post) := by
  intro pre
  induction pre with
  | nil =>
    intro post seen
    simp only [List.nil_append]
    by_cases hscore : h.score > thr
    · simp only [retrieveLoop, if_pos hscore]
    · by_cases hempty : k = ""
      · simp [retrieveLoop, if_neg hscore, hid, hempty]
      · by_cases hseen : k ∈ seen
        · simp [retrieveLoop, if_neg hscore, hid, hempty, hseen]
        · simp only [retrieveLoop, if_neg hscore, hid,
            if_neg (by simp [hempty, hseen] : ¬ (k = "" ∨ k ∈ seen)), hstale]
          exact retrieveLoop_stale_seen cat thr k hstale post seen
  | cons p pre' ih =>
    intro post seen
    simp only [List.cons_append]
    by_cases hscore : p.score > thr
    · simp only [retrieveLoop, if_pos hscore, ih post seen]
    · cases hpid : p.operationId with
      | none => simp only [retrieveLoop, if_neg hscore, hpid, ih post seen]
      | some pk =>
        by_cases hcond : pk = "" ∨ pk ∈ seen
        · simp only [retrieveLoop, if_neg hscore, hpid, if_pos hcond,
            ih post seen]
        · simp only [retrieveLoop, if_neg hscore, hpid, if_neg hcond]
          cases cat.find_by_id pk with
          | some op => simp only [ih post (pk :: seen)]
          | none => simp only [ih post (pk :: seen)]

theorem retrieveLoop_remove_unidentified (cat : SwaggerCatalog) (thr : ℚ)
    (h : ScoredHit)
    (hid : h.operationId = none ∨ h.operationId = some "") :
    ∀ (pre : List ScoredHit) (post : List ScoredHit) (seen : List String),
      retrieveLoop cat thr seen (pre ++ h :: post)
        = retrieveLoop cat thr seen (pre ++ post) := by
  intro pre
  induction pre with
  | nil =>
    intro post seen
    simp only [List.nil_append]
    by_cases hscore : h.score > thr
    · simp only [retrieveLoop, if_pos hscore]
    · rcases hid with hid | hid
      · simp only [retrieveLoop, if_neg hscore, hid]
      · simp [retrieveLoop, if_neg hscore, hid]
  | cons p pre' ih =>
    intro post seen
    simp only [List.cons_append]
    by_cases hscore : p.score > thr
    · simp only [retrieveLoop, if_pos hscore, ih post seen]
    · cases hpid : p.operationId with
      | none => simp only [retrieveLoop, if_neg hscore, hpid, ih post seen]
      | some pk =>
        by_cases hcond : pk = "" ∨ pk ∈ seen
        · simp only [retrieveLoop, if_neg hscore, hpid, if_pos hcond,
            ih post seen]
        · simp only [retrieveLoop, if_neg hscore, hpid, if_neg hcond]
          cases cat.find_by_id pk with
          | some op => simp only [ih post (pk :: seen)]
          | none => simp only [ih post (pk :: seen)]

/-! Concrete fixtures used by the witnesses below. -/

/-- A fixture operation. -/
def opFixtureA : ApiOperationDescriptor :=
  { id := "getUser", http_method := "GET", path := "/users" }

/-- A second fixture operation sharing the id of `opFixtureA` but differing in
its path, as two spec files defining the same explicit operationId would
produce. -/
def opFixtureA2 : ApiOperationDescriptor :=
  { id := "getUser", http_method := "GET", path := "/v2/users" }

/-! The claim theorems about the retriever. -/

/-- C1. For every store response, the retriever never returns two entries
with the same operation id: the returned id sequence is exactly the
surviving hits' ids with duplicates removed keeping the first occurrence
(so the store's order is preserved among survivors), it is duplicate-free,
and each returned operation is the catalog's entry at its own id. -/
theorem retrieve_no_duplicate_ids
    (ops : List ApiOperationDescriptor) (thr : ℚ) (hits : List ScoredHit) :
    ((retrieve_operations hits (mkSwaggerCatalog ops) thr).map (fun op => op.id)
        = dedupKeepFirst (hits.filterMap (survivingId (mkSwaggerCatalog ops) thr)))
    ∧ ((retrieve_operations hits (mkSwaggerCatalog ops) thr).map (fun op => op.id)).Nodup
    ∧ ∀ op ∈ retrieve_operations hits (mkSwaggerCatalog ops) thr,
        (mkSwaggerCatalog ops).find_by_id op.id = some op := by
  have hinv : ∀ k op, (mkSwaggerCatalog ops).find_by_id k = some op → op.id = k :=
    fun k op h => mkSwaggerCatalog_key_eq_id ops k op h
  refine ⟨retrieveLoop_map_id _ thr hinv hits [], ?_, ?_⟩
  · have h := retrieveLoop_map_id (mkSwaggerCatalog ops) thr hinv hits []
    rw [show (retrieve_operations hits (mkSwaggerCatalog ops) thr).map (fun op => op.id)
        = dedupKeepFirstAux [] (hits.filterMap (survivingId (mkSwaggerCatalog ops) thr)) from h]
    exact (dedupKeepFirstAux_nodup _ []).1
  · intro op hmem
    exact retrieveLoop_resolve _ thr hinv hits [] op hmem

/-- Witness for C1: a concrete store response with a duplicated id, on which
the returned operation resolves through the catalog. -/
theorem retrieve_no_duplicate_ids_witness :
    (mkSwaggerCatalog [opFixtureA]).find_by_id opFixtureA.id = some opFixtureA := by
  refine (retrieve_no_duplicate_ids [opFixtureA] 1
    [⟨some "getUser", 0⟩, ⟨some "getUser", 1⟩]).2.2 opFixtureA ?_
  decide

/-- C2. Every operation the retriever returns comes from a hit whose score
does not exceed the threshold, and a response in which every hit exceeds the
threshold yields the empty result rather than an error, however small the
store's answer already was relative to top_k. -/
theorem retrieve_respects_score_threshold
    (cat : SwaggerCatalog) (thr : ℚ) (hits : List ScoredHit) :
    (∀ op ∈ retrieve_operations hits cat thr,
        ∃ h ∈ hits, h.score ≤ thr ∧
          ∃ k, h.operationId = some k ∧ cat.find_by_id k = some op)
    ∧ ((∀ h ∈ hits, h.score > thr) → retrieve_operations hits cat thr = []) := by
  refine ⟨?_, ?_⟩
  · intro op hmem
    exact retrieveLoop_from_hits cat thr hits [] op hmem
  · intro hall
    exact retrieveLoop_all_filtered cat thr hits [] hall

/-- Witness for C2: a response whose only hit exceeds the threshold yields
the empty result. -/
theorem retrieve_respects_score_threshold_witness :
    retrieve_operations [⟨some "getUser", 2⟩] (mkSwaggerCatalog [opFixtureA]) 1
      = [] := by
  refine (retrieve_respects_score_threshold _ _ _).2 ?_
  intro h hmem
  rw [List.mem_singleton] at hmem
  subst hmem
  show (1 : ℚ) < 2
  norm_num

/-- C9. A hit whose operationId has no match in the catalog is dropped
silently: removing it from the store's response leaves the retriever's
output unchanged, and every returned operation resolves through the
catalog's find_by_id. -/
theorem retrieve_drops_stale_hits
    (ops : List ApiOperationDescriptor) (thr : ℚ)
    (pre post : List ScoredHit) (h : ScoredHit) (k : String)
    (hid : h.operationId = some k)
    (hstale : (mkSwaggerCatalog ops).find_by_id k = none) :
    retrieve_operations (pre ++ h :: post) (mkSwaggerCatalog ops) thr
      = retrieve_operations (pre ++ post) (mkSwaggerCatalog ops) thr
    ∧ ∀ op ∈ retrieve_operations (pre ++ h :: post) (mkSwaggerCatalog ops) thr,
        (mkSwaggerCatalog ops).find_by_id op.id = some op := by
  refine ⟨retrieveLoop_remove_stale _ thr h k hid hstale pre post [], ?_⟩
  intro op hmem
  exact retrieveLoop_resolve _ thr
    (fun k op h => mkSwaggerCatalog_key_eq_id ops k op h) _ [] op hmem

/-- Witness for C9: a stale hit between two resolvable hits is dropped
without affecting them. -/
theorem retrieve_drops_stale_hits_witness :
    retrieve_operations
        [⟨some "getUser", 0⟩, ⟨some "gone", 0⟩, ⟨some "getUser", 1⟩]
        (mkSwaggerCatalog [opFixtureA]) 1
      = retrieve_operations [⟨some "getUser", 0⟩, ⟨some "getUser", 1⟩]
        (mkSwaggerCatalog [opFixtureA]) 1 :=
  (retrieve_drops_stale_hits [opFixtureA] 1 [⟨some "getUser", 0⟩]
    [⟨some "getUser", 1⟩] ⟨some "gone", 0⟩ "gone" rfl (by decide)).1

/-- C10. A hit whose metadata has no operationId entry, or whose operationId
is the empty string, is silently excluded from the output whatever its
score: removing it from the store's response leaves the retriever's output
unchanged. -/
theorem retrieve_skips_hits_without_id
    (cat : SwaggerCatalog) (thr : ℚ) (pre post : List ScoredHit)
    (h : ScoredHit)
    (hid : h.operationId = none ∨ h.operationId = some "") :
    retrieve_operations (pre ++ h :: post) cat thr
      = retrieve_operations (pre ++ post) cat thr :=
  retrieveLoop_remove_unidentified cat thr h hid pre post []

/-- Witness for C10: a hit with no operationId metadata and a passing score
is excluded. -/
theorem retrieve_skips_hits_without_id_witness :
    retrieve_operations [⟨none, 0.1⟩, ⟨some "getUser", 0.5⟩]
        (mkSwaggerCatalog [opFixtureA]) 1.2
      = retrieve_operations [⟨some "getUser", 0.5⟩]
        (mkSwaggerCatalog [opFixtureA]) 1.2 :=
  retrieve_skips_hits_without_id (mkSwaggerCatalog [opFixtureA]) 1.2 []
    [⟨some "getUser", 0.5⟩] ⟨none, 0.1⟩ (Or.inl rfl)

/-- Witness for C5: two operations share the id "getUser"; the catalog keeps
one entry, holding the later operation. -/
theorem catalog_duplicate_id_last_write_wins_witness :
    (mkSwaggerCatalog [opFixtureA, opFixtureA2]).by_id.countP
        (fun kv => kv.1 == "getUser") = 1 ∧
      (mkSwaggerCatalog [opFixtureA, opFixtureA2]).find_by_id "getUser" =
        [opFixtureA, opFixtureA2].reverse.find? (fun op => op.id == "getUser") :=
  catalog_duplicate_id_last_write_wins [opFixtureA, opFixtureA2] "getUser"
    (by decide)

/-! Helper lemmas about the formatter. -/

theorem pyJoin_cons_data (sep x : String) (xs : List String) :
    ∃ t, (pyJoin sep (x :: xs)).data = x.data ++ t := by
  cases xs with
  | nil => exact ⟨[], by simp [pyJoin]⟩
  | cons y ys =>
    refine ⟨sep.data ++ (pyJoin sep (y :: ys)).data, ?_⟩
    simp [pyJoin]

theorem operationBlock_head (i : Nat) (op : ApiOperationDescriptor) :
    ∃ t, (operationBlock i op).data = (toString i).data ++ t := by
  simp only [operationBlock, List.cons_append, List.append_assoc,
    List.nil_append]
  rcases pyJoin_cons_data "\n" (toString i ++ ") ID: " ++ op.id) _ with ⟨t, ht⟩
  refine ⟨(") ID: " : String).data ++ op.id.data ++ t, ?_⟩
  rw [ht]
  simp

/-- C3. format_operations_context on the empty list returns exactly the
sentinel string "NO_OPERATIONS_AVAILABLE", and on any non-empty list of
operation descriptors it never returns that literal string (its output
starts with the first numbered block). -/
theorem format_empty_sentinel :
    format_operations_context [] = "NO_OPERATIONS_AVAILABLE"
    ∧ ∀ (op : ApiOperationDescriptor) (ops : List ApiOperationDescriptor),
        format_operations_context (op :: ops) ≠ "NO_OPERATIONS_AVAILABLE" := by
  refine ⟨rfl, ?_⟩
  intro op ops heq
  have h1 : format_operations_context (op :: ops)
      = pyJoin "\n\n" (operationBlock 1 op ::
          (pyEnumerate 2 ops).map (fun p => operationBlock p.1 p.2)) := by
    simp [format_operations_context, pyEnumerate]
  rw [h1] at heq
  have hd := congrArg String.data heq
  rcases pyJoin_cons_data "\n\n" (operationBlock 1 op)
    ((pyEnumerate 2 ops).map (fun p => operationBlock p.1 p.2)) with ⟨t, ht⟩
  rcases operationBlock_head 1 op with ⟨t', ht'⟩
  rw [ht, ht'] at hd
  have hone : (toString (1 : Nat)).data = ['1'] := by decide
  rw [hone] at hd
  have hhead := congrArg List.head? hd
  simp only [List.cons_append, List.nil_append, List.head?_cons] at hhead
  exact absurd hhead (by decide)

/-- Witness for C3: the formatter applied to a concrete singleton list does
not return the sentinel. -/
theorem format_empty_sentinel_witness :
    format_operations_context [opFixtureA] ≠ "NO_OPERATIONS_AVAILABLE" :=
  format_empty_sentinel.2 opFixtureA []

/-! Shape well-formedness of parsed OpenAPI documents: the shapes on which
the Python loader runs without raising (valid OpenAPI 3.x documents have
these shapes; a shape outside them makes the source raise an uncaught
AttributeError or a pydantic validation error instead of returning). -/

/-- True exactly on JSON objects. -/
def Json.isObjB : Json → Bool
  | .obj _ => true
  | _ => false

/-- An optional-string field as the loader consumes it: absent, JSON null,
or a string. -/
def strishField (j : Json) (k : String) : Bool :=
  match j.lookupField k with
  | none => true
  | some .null => true
  | some (.str _) => true
  | some _ => false

/-- Shape of one parameter object. -/
def paramWFb (p : Json) : Bool :=
  p.isObjB
  && (match p.lookupField "name" with
      | none => true
      | some (.str _) => true
      | some _ => false)
  && strishField p "in"
  && (match p.lookupField "required" with
      | none => true
      | some (.bool _) => true
      | some _ => false)
  && (match p.lookupField "schema" with
      | none => true
      | some (.obj fields) =>
        strishField (Json.obj fields) "type"
          && strishField (Json.obj fields) "format"
      | some _ => false)
  && strishField p "description"

/-- Shape of a `parameters` field: absent, or an array of well-formed
parameter objects. -/
def paramsFieldWFb (j : Json) : Bool :=
  match j.lookupField "parameters" with
  | none => true
  | some (.arr elems) => elems.all paramWFb
  | some _ => false

/-- Shape of one operation object. -/
def operationWFb (op : Json) : Bool :=
  op.isObjB
  && strishField op "operationId"
  && strishField op "summary"
  && strishField op "description"
  && (match op.lookupField "tags" with
      | none => true
      | some (.arr elems) => elems.all fun t => (t.asStr).isSome
      | some _ => false)
  && paramsFieldWFb op
  && (match op.lookupField "requestBody" with
      | none => true
      | some .null => true
      | some (.obj fields) => strishField (Json.obj fields) "description"
      | some _ => false)

/-- Shape of one path item: an object whose `parameters` field is
well-formed and whose supported-method keys, when present, hold JSON null
(which the source skips) or operation objects. -/
def pathItemWFb (item : Json) : Bool :=
  item.isObjB
  && paramsFieldWFb item
  && _HTTP_METHODS.all fun m =>
      match item.lookupField m with
      | none => true
      | some .null => true
      | some v => operationWFb v

/-- Shape of one spec document: `paths`, when present, is an object of
well-formed path items. -/
def specWFb (spec : Json) : Bool :=
  match spec.lookupField "paths" with
  | none => true
  | some (.obj fields) => fields.all fun kv => pathItemWFb kv.2
  | some _ => false

/-- The number of supported-method keys present over the path items of one
spec document, a key with a stored JSON null value included. -/
def countSupportedMethodKeys (spec : Json) : Nat :=
  (((spec.getFieldD "paths" (Json.obj [])).objFields).map fun pt =>
    _HTTP_METHODS.countP fun m => (pt.2.lookupField m).isSome).sum

/-- True when the key is present with a non-null value: the condition under
which `path_item.get(method)` yields an operation rather than None. -/
def hasNonNullKey (j : Json) (k : String) : Bool :=
  match j.lookupField k with
  | none => false
  | some .null => false
  | some _ => true

/-- The number of supported-method keys present with a non-null value over
the path items of one spec document. -/
def countSupportedNonNullMethodKeys (spec : Json) : Nat :=
  (((spec.getFieldD "paths" (Json.obj [])).objFields).map fun pt =>
    _HTTP_METHODS.countP fun m => hasNonNullKey pt.2 m).sum

theorem length_filterMap_eq_countP {α β : Type} (f : α → Option β)
    (l : List α) :
    (l.filterMap f).length = l.countP fun a => (f a).isSome := by
  induction l with
  | nil => rfl
  | cons x xs ih =>
    cases hx : f x <;>
      simp [List.filterMap_cons, hx, List.countP_cons, ih]

theorem pathItem_count (item : Json)
    (buildOf : String → Json → ApiOperationDescriptor) :
    (_HTTP_METHODS.filterMap fun method =>
        (item.pyGet method).map (buildOf method)).length
      = _HTTP_METHODS.countP fun m => hasNonNullKey item m := by
  rw [length_filterMap_eq_countP]
  refine List.countP_congr ?_
  intro m _
  unfold Json.pyGet hasNonNullKey
  cases hv : item.lookupField m with
  | none => simp
  | some v => cases v <;> simp

theorem fileOperations_length (name : String) (spec : Json) :
    (fileOperations name spec).length
      = countSupportedNonNullMethodKeys spec := by
  unfold fileOperations countSupportedNonNullMethodKeys
  rw [List.length_flatMap]
  congr 1
  refine List.map_congr_left ?_
  intro pt _
  exact pathItem_count pt.2 _

/-- A fixture spec document whose single path item carries a supported get
key whose stored value is JSON null: `json.load` accepts it, the source's
`path_item.get("get")` returns None for it and skips it without raising, so
the loader yields zero operations although one supported-method key is
present. -/
def specNullGet : Json :=
  Json.obj [("paths", Json.obj [("/x", Json.obj [("get", Json.null)])])]

/-- Counterexample to C4 as stated: on a successfully parsed spec whose get
key holds JSON null, the loader produces 0 operations while the number of
supported-method keys present on the path items is 1. -/
theorem load_count_counterexample :
    (load_all_operations [("a.json", Except.ok specNullGet)]).length = 0
    ∧ ([("a.json", specNullGet)].map fun f =>
        countSupportedMethodKeys f.2).sum = 1 :=
  ⟨rfl, rfl⟩

/-- C4 (amended). For every list of successfully parsed, shape-well-formed
spec documents (a supported-method key may hold JSON null, which the source
skips), the loader produces exactly one operation per supported-method key
(get, post, put, delete, patch) present on a path item with a non-null
value: the total count equals the sum over all path items of the number of
such keys, so keys for unsupported methods such as options or trace never
contribute an operation. -/
theorem load_count_eq_supported_method_keys
    (files : List (String × Json))
    (hwf : ∀ f ∈ files, specWFb f.2 = true) :
    (load_all_operations (files.map fun f => (f.1, Except.ok f.2))).length
      = (files.map fun f => countSupportedNonNullMethodKeys f.2).sum := by
  induction files with
  | nil => rfl
  | cons f fs ih =>
    have hfs : ∀ g ∈ fs, specWFb g.2 = true :=
      fun g hg => hwf g (List.mem_cons_of_mem _ hg)
    simp only [List.map_cons, load_all_operations, List.flatMap_cons,
      List.length_append, List.sum_cons]
    rw [fileOperations_length f.1 f.2]
    have := ih hfs
    simp only [load_all_operations] at this
    rw [this]

/-- A fixture spec document: one path holding a supported get operation, an
unsupported trace key, and one path-level parameter. -/
def specFixture : Json :=
  Json.obj [("paths", Json.obj [("/users", Json.obj
    [("get", Json.obj [("operationId", Json.str "getUser")]),
     ("trace", Json.obj []),
     ("parameters", Json.arr [Json.obj
       [("name", Json.str "id"), ("in", Json.str "path"),
        ("required", Json.bool true),
        ("schema", Json.obj [("type", Json.str "string")])]])])])]

/-- A fixture spec document holding a non-null get operation, a null post
key and an unsupported trace key on one path item. -/
def specFixtureNullPost : Json :=
  Json.obj [("paths", Json.obj [("/users", Json.obj
    [("get", Json.obj [("operationId", Json.str "getUser")]),
     ("post", Json.null),
     ("trace", Json.obj [])])])]

/-- Witness for C4 (amended): on the fixture spec, the loader count equals
the non-null supported-method key count (one: the null post key and the
trace key contribute nothing). -/
theorem load_count_eq_supported_method_keys_witness :
    (load_all_operations [("a.json", Except.ok specFixtureNullPost)]).length
      = ([("a.json", specFixtureNullPost)].map fun f =>
          countSupportedNonNullMethodKeys f.2).sum := by
  refine load_count_eq_supported_method_keys [("a.json", specFixtureNullPost)] ?_
  intro f hf
  rw [List.mem_singleton] at hf
  subst hf
  rfl

/-! The request-body claim. -/

theorem pyGet_some_lookupField (j : Json) (k : String) (v : Json)
    (h : j.pyGet k = some v) : j.lookupField k = some v := by
  unfold Json.pyGet at h
  cases hl : j.lookupField k with
  | none => rw [hl] at h; simp at h
  | some w =>
    rw [hl] at h
    cases w <;> simp_all

/-- Shape of the requestBody field alone: absent, JSON null, or an object.
On any other truthy value the source's summary lookup raises. -/
def requestBodyFieldWFb (op : Json) : Bool :=
  match op.lookupField "requestBody" with
  | none => true
  | some .null => true
  | some (.obj _) => true
  | some _ => false

/-- Counterexample to C6 as stated: an operation carrying a requestBody key
whose value is JSON null. The key exists on the operation, yet the built
descriptor has has_request_body = false, because the source's
`operation.get("requestBody")` returns None for a stored null just as for an
absent key. -/
theorem build_operation_request_body_counterexample :
    ((Json.obj [("requestBody", Json.null)]).lookupField "requestBody"
        = some Json.null)
    ∧ (_build_operation "/pets" "post" (Json.obj [("requestBody", Json.null)])
        [] "a.json").has_request_body = false :=
  ⟨rfl, rfl⟩

/-- C6 (amended). For an operation whose requestBody field is absent, JSON
null, or an object — the shapes the source handles without raising — the
built descriptor has has_request_body true exactly when a requestBody key
exists with a non-null value, and request_body_summary is populated (from
the request body's description field) only when such a request body is
present and carries a description. -/
theorem build_operation_request_body
    (path method : String) (operation : Json) (pps : List Json)
    (src : String) (hrb : requestBodyFieldWFb operation = true) :
    ((_build_operation path method operation pps src).has_request_body = true
      ↔ ∃ v, operation.lookupField "requestBody" = some v ∧ v ≠ Json.null)
    ∧ ∀ s, (_build_operation path method operation pps src).request_body_summary
          = some s →
        ∃ rb, operation.lookupField "requestBody" = some rb
          ∧ rb.lookupField "description" = some (Json.str s) := by
  unfold requestBodyFieldWFb at hrb
  cases hv : operation.lookupField "requestBody" with
  | none =>
    refine ⟨?_, ?_⟩
    · constructor
      · intro hb
        simp [_build_operation, Json.pyGet, hv] at hb
      · rintro ⟨v, hv', _⟩
        exact absurd hv' (by simp)
    · intro s hs
      simp [_build_operation, Json.pyGet, hv] at hs
  | some v =>
    rw [hv] at hrb
    cases v with
    | null =>
      refine ⟨?_, ?_⟩
      · constructor
        · intro hb
          simp [_build_operation, Json.pyGet, hv] at hb
        · rintro ⟨v, hv', hvn⟩
          injection hv' with h
          exact absurd h.symm hvn
      · intro s hs
        simp [_build_operation, Json.pyGet, hv] at hs
    | obj fields =>
      have hbody : (_build_operation path method operation pps
          src).has_request_body = true := by
        simp [_build_operation, Json.pyGet, hv]
      refine ⟨?_, ?_⟩
      · constructor
        · intro _
          exact ⟨Json.obj fields, rfl, by simp⟩
        · intro _
          exact hbody
      · intro s hs
        have hsum : (_build_operation path method operation pps
            src).request_body_summary
            = if (Json.obj fields).pyTruthy then
                ((Json.obj fields).pyGet "description").bind Json.asStr
              else none := by
          simp [_build_operation, Json.pyGet, hv]
        rw [hsum] at hs
        by_cases ht : (Json.obj fields).pyTruthy
        · rw [if_pos ht] at hs
          cases hd : (Json.obj fields).pyGet "description" with
          | none => rw [hd] at hs; simp at hs
          | some d =>
            rw [hd] at hs
            have hlf := pyGet_some_lookupField _ _ _ hd
            cases d with
            | str s0 =>
              simp [Json.asStr] at hs
              rw [← hs]
              exact ⟨Json.obj fields, rfl, hlf⟩
            | null => simp [Json.asStr] at hs
            | bool b => simp [Json.asStr] at hs
            | num q => simp [Json.asStr] at hs
            | arr elems => simp [Json.asStr] at hs
            | obj f2 => simp [Json.asStr] at hs
        · rw [if_neg ht] at hs
          simp at hs
    | bool b => exact Bool.noConfusion hrb
    | num q => exact Bool.noConfusion hrb
    | str s => exact Bool.noConfusion hrb
    | arr elems => exact Bool.noConfusion hrb

/-- A fixture operation object carrying a request body with a description. -/
def operationFixtureRB : Json :=
  Json.obj [("requestBody", Json.obj [("description", Json.str "payload")])]

/-- Witness for C6 (amended): a concrete operation whose request body
carries a description populates the summary from it. -/
theorem build_operation_request_body_witness :
    ∃ rb, operationFixtureRB.lookupField "requestBody" = some rb
      ∧ rb.lookupField "description" = some (Json.str "payload") :=
  (build_operation_request_body "/pets" "post" operationFixtureRB [] "a.json"
    rfl).2 "payload" rfl

/-! The parameter-ordering claim. -/

/-- C7. Every descriptor the loader produces draws its parameter sequence
from a path item and a method-level operation of the input, as the
path-level parameter list mapped through _build_param followed by the
operation-level parameter list mapped through _build_param: all path-level
parameters precede all operation-level ones, each group in source order,
whatever the parameter names. -/
theorem load_parameters_path_level_first
    (files : List (String × Except String Json))
    (op : ApiOperationDescriptor) (hmem : op ∈ load_all_operations files) :
    ∃ (pt : String × Json) (method : String) (operation : Json),
      method ∈ _HTTP_METHODS ∧ pt.2.pyGet method = some operation ∧
      (∃ f ∈ files, ∃ spec, f.2 = Except.ok spec ∧
          pt ∈ (spec.getFieldD "paths" (Json.obj [])).objFields) ∧
      op.parameters = (pt.2.getArrD "parameters").map _build_param
        ++ (operation.getArrD "parameters").map _build_param := by
  unfold load_all_operations at hmem
  rw [List.mem_flatMap] at hmem
  rcases hmem with ⟨f, hf, hmem⟩
  cases hsp : f.2 with
  | error e => rw [hsp] at hmem; simp at hmem
  | ok spec =>
    rw [hsp] at hmem
    change op ∈ fileOperations f.1 spec at hmem
    unfold fileOperations at hmem
    rw [List.mem_flatMap] at hmem
    rcases hmem with ⟨pt, hpt, hmem⟩
    rw [List.mem_filterMap] at hmem
    rcases hmem with ⟨method, hmethod, hopt⟩
    cases hop : pt.2.pyGet method with
    | none => rw [hop] at hopt; simp at hopt
    | some operation =>
      rw [hop] at hopt
      simp only [Option.map_some', Option.some.injEq] at hopt
      refine ⟨pt, method, operation, hmethod, hop,
        ⟨f, hf, spec, hsp, hpt⟩, ?_⟩
      rw [← hopt]
      rfl

/-- The descriptor the loader builds from the fixture spec's get operation. -/
def fixtureOpUsers : ApiOperationDescriptor :=
  _build_operation "/users" "get"
    (Json.obj [("operationId", Json.str "getUser")])
    [Json.obj [("name", Json.str "id"), ("in", Json.str "path"),
      ("required", Json.bool true),
      ("schema", Json.obj [("type", Json.str "string")])]]
    "a.json"

/-- Witness for C7: the fixture spec's loaded operation has its parameter
sequence split as path-level parameters first. -/
theorem load_parameters_path_level_first_witness :
    ∃ (pt : String × Json) (method : String) (operation : Json),
      method ∈ _HTTP_METHODS ∧ pt.2.pyGet method = some operation ∧
      (∃ f ∈ [("a.json", (Except.ok specFixture : Except String Json))],
        ∃ spec, f.2 = Except.ok spec ∧
          pt ∈ (spec.getFieldD "paths" (Json.obj [])).objFields) ∧
      fixtureOpUsers.parameters = (pt.2.getArrD "parameters").map _build_param
        ++ (operation.getArrD "parameters").map _build_param :=
  load_parameters_path_level_first [("a.json", Except.ok specFixture)]
    fixtureOpUsers (List.Mem.head _)

end AskToApi
